import Mathlib

set_option maxRecDepth 40000
set_option maxHeartbeats 4000000

/-!
Verification of the task-orchestration core of the code-lit studio backend
(src/code-lit-studio/backend/dist/server.js), shallowly embedded in Lean.

Text is modelled as Lean String / List Char.  JSON values produced by the
JavaScript JSON.parse are modelled by the inductive JValue below; numbers are
kept as their source tokens (the claims under study never depend on numeric
value identity), and \uXXXX escapes denoting surrogate halves are rejected by
the model parser (Lean Char holds unicode scalars only; no claim exercises
them).  The absent-property value undefined is modelled by Option.none at the
property-lookup layer.
-/

-- ------------------ JSON value model ------------------

inductive JValue where
  | null
  | bool (b : Bool)
  | num (token : String)
  | str (s : String)
  | arr (elems : List JValue)
  | obj (fields : List (String × JValue))
deriving Repr

mutual
def JValue.beq : JValue → JValue → Bool
  | .null, .null => true
  | .bool a, .bool b => a == b
  | .num a, .num b => a == b
  | .str a, .str b => a == b
  | .arr a, .arr b => JValue.beqList a b
  | .obj a, .obj b => JValue.beqFields a b
  | _, _ => false

def JValue.beqList : List JValue → List JValue → Bool
  | [], [] => true
  | a :: as, b :: bs => JValue.beq a b && JValue.beqList as bs
  | _, _ => false

def JValue.beqFields : List (String × JValue) → List (String × JValue) → Bool
  | [], [] => true
  | (ka, va) :: as, (kb, vb) :: bs => ka == kb && JValue.beq va vb && JValue.beqFields as bs
  | _, _ => false
end

mutual
theorem JValue.beq_eq : ∀ a b : JValue, JValue.beq a b = true → a = b
  | .null, .null, _ => rfl
  | .bool a, .bool b, h => by
      simp only [JValue.beq] at h; exact congrArg JValue.bool (eq_of_beq h)
  | .num a, .num b, h => by
      simp only [JValue.beq] at h; exact congrArg JValue.num (eq_of_beq h)
  | .str a, .str b, h => by
      simp only [JValue.beq] at h; exact congrArg JValue.str (eq_of_beq h)
  | .arr a, .arr b, h => by
      simp only [JValue.beq] at h
      exact congrArg JValue.arr (JValue.beqList_eq a b h)
  | .obj a, .obj b, h => by
      simp only [JValue.beq] at h
      exact congrArg JValue.obj (JValue.beqFields_eq a b h)

theorem JValue.beqList_eq : ∀ a b : List JValue, JValue.beqList a b = true → a = b
  | [], [], _ => rfl
  | a :: as, b :: bs, h => by
      simp only [JValue.beqList, Bool.and_eq_true] at h
      rw [JValue.beq_eq a b h.1, JValue.beqList_eq as bs h.2]

theorem JValue.beqFields_eq :
    ∀ a b : List (String × JValue), JValue.beqFields a b = true → a = b
  | [], [], _ => rfl
  | (ka, va) :: as, (kb, vb) :: bs, h => by
      simp only [JValue.beqFields, Bool.and_eq_true] at h
      obtain ⟨⟨hk, hv⟩, hrest⟩ := h
      rw [eq_of_beq hk, JValue.beq_eq va vb hv, JValue.beqFields_eq as bs hrest]
end

mutual
theorem JValue.beq_refl : ∀ a : JValue, JValue.beq a a = true
  | .null => rfl
  | .bool a => by simp [JValue.beq]
  | .num a => by simp [JValue.beq]
  | .str a => by simp [JValue.beq]
  | .arr a => by simp only [JValue.beq]; exact JValue.beqList_refl a
  | .obj a => by simp only [JValue.beq]; exact JValue.beqFields_refl a

theorem JValue.beqList_refl : ∀ a : List JValue, JValue.beqList a a = true
  | [] => rfl
  | a :: as => by
      simp only [JValue.beqList, Bool.and_eq_true]
      exact ⟨JValue.beq_refl a, JValue.beqList_refl as⟩

theorem JValue.beqFields_refl : ∀ a : List (String × JValue), JValue.beqFields a a = true
  | [] => rfl
  | (k, v) :: as => by
      simp only [JValue.beqFields, Bool.and_eq_true]
      exact ⟨⟨beq_self_eq_true k, JValue.beq_refl v⟩, JValue.beqFields_refl as⟩
end

instance : DecidableEq JValue := fun a b =>
  if h : JValue.beq a b = true then
    isTrue (JValue.beq_eq a b h)
  else
    isFalse (fun he => h (he ▸ JValue.beq_refl a))

/-- Property lookup on a parsed JSON value, as JavaScript property access on
the parse result: on an object the LAST field with the key wins (JSON.parse
keeps the last duplicate), on every other value the access yields undefined
(modelled as none).  The orchestrator never accesses properties of null at
this layer (that case throws and is modelled separately). -/
def jget (v : JValue) (key : String) : Option JValue :=
  match v with
  | .obj fields => (fields.filter (fun f => f.1 == key)).getLast?.map (fun f => f.2)
  | _ => none

/-- A JSON number token denotes zero iff its mantissa has no nonzero digit. -/
def jnumIsZero (t : String) : Bool :=
  (t.toList.takeWhile (fun c => ¬ (c == 'e' || c == 'E'))).all
    (fun c => ¬ ('1' ≤ c ∧ c ≤ '9'))

/-- JavaScript truthiness of a value that may be undefined (none). -/
def jsTruthy : Option JValue → Bool
  | none => false
  | some .null => false
  | some (.bool b) => b
  | some (.num t) => ¬ jnumIsZero t
  | some (.str s) => s ≠ ""
  | some (.arr _) => true
  | some (.obj _) => true

/-- The length property: defined on arrays and strings, undefined elsewhere. -/
def jsLength : JValue → Option Nat
  | .arr xs => some xs.length
  | .str s => some s.length
  | _ => none

def jsLenOpt : Option JValue → Option Nat
  | none => none
  | some v => jsLength v

mutual
/-- JavaScript String() coercion of a JSON value.  Number tokens are kept
verbatim (the source formats through Number; no claim depends on numeric
reformatting), arrays stringify as the comma join of their elements with null
as the empty string, objects as the usual tag. -/
def jsToString : JValue → String
  | .null => "null"
  | .bool true => "true"
  | .bool false => "false"
  | .num t => t
  | .str s => s
  | .arr xs => String.intercalate "," (jsToStringElems xs)
  | .obj _ => "[object Object]"

def jsToStringElems : List JValue → List String
  | [] => []
  | .null :: rest => "" :: jsToStringElems rest
  | v :: rest => jsToString v :: jsToStringElems rest
end

/-- String coercion of a possibly-undefined value (template literals and
property keys coerce undefined to the text undefined). -/
def jsToStr? : Option JValue → String
  | none => "undefined"
  | some v => jsToString v

-- ------------------ JSON parser (model of JSON.parse) ------------------

def lbrace : Char := Char.ofNat 123
def rbrace : Char := Char.ofNat 125

def isJsonWs (c : Char) : Bool :=
  c == ' ' || c == '\t' || c == '\n' || c == '\r'

def skipWs (cs : List Char) : List Char := cs.dropWhile isJsonWs

def hexVal (c : Char) : Option Nat :=
  if '0' ≤ c ∧ c ≤ '9' then some (c.toNat - '0'.toNat)
  else if 'a' ≤ c ∧ c ≤ 'f' then some (c.toNat - 'a'.toNat + 10)
  else if 'A' ≤ c ∧ c ≤ 'F' then some (c.toNat - 'A'.toNat + 10)
  else none

/-- Parse the body of a JSON string after the opening quote; returns the
decoded string and the remaining input after the closing quote. -/
def pStringAux : List Char → List Char → Option (String × List Char)
  | _, [] => none
  | acc, c :: cs =>
    if c == '"' then some (String.mk acc.reverse, cs)
    else if c == '\\' then
      match cs with
      | [] => none
      | e :: cs1 =>
        if e == '"' then pStringAux ('"' :: acc) cs1
        else if e == '\\' then pStringAux ('\\' :: acc) cs1
        else if e == '/' then pStringAux ('/' :: acc) cs1
        else if e == 'b' then pStringAux (Char.ofNat 8 :: acc) cs1
        else if e == 'f' then pStringAux (Char.ofNat 12 :: acc) cs1
        else if e == 'n' then pStringAux ('\n' :: acc) cs1
        else if e == 'r' then pStringAux ('\r' :: acc) cs1
        else if e == 't' then pStringAux ('\t' :: acc) cs1
        else if e == 'u' then
          match cs1 with
          | h1 :: h2 :: h3 :: h4 :: cs2 =>
            match hexVal h1, hexVal h2, hexVal h3, hexVal h4 with
            | some a, some b, some c2, some d =>
              let n := ((a * 16 + b) * 16 + c2) * 16 + d
              if 0xD800 ≤ n ∧ n ≤ 0xDFFF then none
              else pStringAux (Char.ofNat n :: acc) cs2
            | _, _, _, _ => none
          | _ => none
        else none
    else if c.toNat < 0x20 then none
    else pStringAux (c :: acc) cs

/-- Parse a JSON number token starting at the given input. -/
def pNumber (cs0 : List Char) : Option (String × List Char) :=
  let negRest : List Char × List Char :=
    match cs0 with
    | '-' :: r => (['-'], r)
    | _ => ([], cs0)
  let neg := negRest.1
  let cs1 := negRest.2
  match cs1 with
  | [] => none
  | c :: rest1 =>
    if ¬ c.isDigit then none
    else
      let ipr : List Char × List Char :=
        if c == '0' then (['0'], rest1)
        else (cs1.takeWhile Char.isDigit, cs1.dropWhile Char.isDigit)
      let ip := ipr.1
      let r1 := ipr.2
      let fr : Option (List Char × List Char) :=
        match r1 with
        | '.' :: r2 =>
          let ds := r2.takeWhile Char.isDigit
          if ds.isEmpty then none
          else some ('.' :: ds, r2.dropWhile Char.isDigit)
        | _ => some ([], r1)
      match fr with
      | none => none
      | some (fp, r3) =>
        let ex : Option (List Char × List Char) :=
          match r3 with
          | e :: r4 =>
            if e == 'e' || e == 'E' then
              let sr : List Char × List Char :=
                match r4 with
                | '+' :: r5 => (['+'], r5)
                | '-' :: r5 => (['-'], r5)
                | _ => ([], r4)
              let ds := sr.2.takeWhile Char.isDigit
              if ds.isEmpty then none
              else some (e :: (sr.1 ++ ds), sr.2.dropWhile Char.isDigit)
            else some ([], r3)
          | [] => some ([], r3)
        match ex with
        | none => none
        | some (ep, r5) => some (String.mk (neg ++ ip ++ fp ++ ep), r5)

def dropLit : List Char → List Char → Option (List Char)
  | [], cs => some cs
  | _ :: _, [] => none
  | l :: ls, c :: cs => if c == l then dropLit ls cs else none

mutual
/-- Fuel-indexed recursive-descent parser for one JSON value; mirrors the
grammar accepted by JSON.parse. -/
def pValue : Nat → List Char → Option (JValue × List Char)
  | 0, _ => none
  | f + 1, cs =>
    match skipWs cs with
    | [] => none
    | c :: rest =>
      if c == lbrace then
        match skipWs rest with
        | d :: rest1 => if d == rbrace then some (.obj [], rest1) else pMembers f rest []
        | [] => none
      else if c == '[' then
        match skipWs rest with
        | ']' :: rest1 => some (.arr [], rest1)
        | _ => pElems f rest []
      else if c == '"' then
        (pStringAux [] rest).map (fun p => (.str p.1, p.2))
      else if c == 't' then
        (dropLit ['r', 'u', 'e'] rest).map (fun r => (.bool true, r))
      else if c == 'f' then
        (dropLit ['a', 'l', 's', 'e'] rest).map (fun r => (.bool false, r))
      else if c == 'n' then
        (dropLit ['u', 'l', 'l'] rest).map (fun r => (.null, r))
      else if c == '-' || c.isDigit then
        (pNumber (c :: rest)).map (fun p => (.num p.1, p.2))
      else none

def pMembers : Nat → List Char → List (String × JValue) → Option (JValue × List Char)
  | 0, _, _ => none
  | f + 1, cs, acc =>
    match skipWs cs with
    | '"' :: rest =>
      match pStringAux [] rest with
      | none => none
      | some (k, r1) =>
        match skipWs r1 with
        | ':' :: r2 =>
          match pValue f r2 with
          | none => none
          | some (v, r3) =>
            match skipWs r3 with
            | ',' :: r4 => pMembers f r4 (acc ++ [(k, v)])
            | d :: r4 => if d == rbrace then some (.obj (acc ++ [(k, v)]), r4) else none
            | [] => none
        | _ => none
    | _ => none

def pElems : Nat → List Char → List JValue → Option (JValue × List Char)
  | 0, _, _ => none
  | f + 1, cs, acc =>
    match pValue f cs with
    | none => none
    | some (v, r1) =>
      match skipWs r1 with
      | ',' :: r2 => pElems f r2 (acc ++ [v])
      | ']' :: r2 => some (.arr (acc ++ [v]), r2)
      | _ => none
end

/-- Model of JSON.parse: the whole input must be one JSON value surrounded by
optional whitespace. -/
def jsonParse (s : String) : Option JValue :=
  let cs := s.toList
  match pValue (2 * cs.length + 2) cs with
  | some (v, rest) => if (skipWs rest).isEmpty then some v else none
  | none => none

-- ------------------ extractJSONFromResponse ------------------

def firstIdxOfChar (t : Char) : List Char → Option Nat
  | [] => none
  | c :: cs => if c == t then some 0 else (firstIdxOfChar t cs).map (· + 1)

def lastIdxOfChar (t : Char) (cs : List Char) : Option Nat :=
  (firstIdxOfChar t cs.reverse).map (fun i => cs.length - 1 - i)

/-- The match of the regular expression (open-brace [\s\S]* close-brace)
against the reply text: leftmost start, greedy extent, i.e. the block from
the first open brace to the last close brace of the whole text, provided the
close brace comes later. -/
def regexBlockMatch (s : String) : Option String :=
  let cs := s.toList
  match firstIdxOfChar lbrace cs, lastIdxOfChar rbrace cs with
  | some i, some j => if i < j then some (String.mk ((cs.drop i).take (j + 1 - i))) else none
  | _, _ => none

/-- Model of extractJSONFromResponse: match the brace block, JSON.parse it,
and return null (none) when either step fails. -/
def extractJSONFromResponse (s : String) : Option JValue :=
  match regexBlockMatch s with
  | none => none
  | some block => jsonParse block

-- ------------------ Orchestrator data model ------------------

/-- JavaScript String.prototype.trim whitespace set. -/
def isJsWsChar (c : Char) : Bool :=
  c == ' ' || c == '\t' || c == '\n' || c == '\r' || c == Char.ofNat 0x0b ||
  c == Char.ofNat 0x0c || c.toNat == 0xa0 || c.toNat == 0x1680 ||
  (0x2000 ≤ c.toNat && c.toNat ≤ 0x200a) || c.toNat == 0x2028 ||
  c.toNat == 0x2029 || c.toNat == 0x202f || c.toNat == 0x205f ||
  c.toNat == 0x3000 || c.toNat == 0xfeff

def jsTrim (s : String) : String :=
  String.mk (((s.toList.dropWhile isJsWsChar).reverse.dropWhile isJsWsChar).reverse)

inductive Role where
  | user
  | assistant
  | system
deriving DecidableEq, Repr

/-- A conversation message; content is a possibly-undefined value (the code
pushes parsedResponse.explanation verbatim, which is undefined when the
parsed object has no explanation field). -/
structure Message where
  role : Role
  content : Option JValue
deriving DecidableEq, Repr

def sysMsg (s : String) : Message := ⟨.system, some (.str s)⟩

/-- Outcome of one model consultation, chosen by the Language Model Client
collaborator: an exception carrying a message, or a reply whose content may
be absent. -/
inductive LlmReply where
  | raise (msg : String)
  | content (c : Option String)
deriving DecidableEq

/-- Outcome of one registered handler invocation, chosen by the collaborator
behavior: a returned value or a thrown error message. -/
inductive HandlerOut where
  | success (v : JValue)
  | thrown (msg : String)
deriving DecidableEq

/-- The adversarial environment: the Language Model Client (a function of the
current transcript) and the behavior of each registered handler (a function
of iteration, index in the batch, handler key, arguments and projectId). -/
structure Env where
  llm : List Message → LlmReply
  handler : Nat → Nat → String → Option JValue → String → HandlerOut

/-- The keys of the fixed FUNCTION_HANDLERS registry of the source. -/
def FUNCTION_HANDLERS : List String :=
  ["readFile", "writeFile", "createFile", "deleteFile", "refreshUI",
   "stopWebsite", "restartWebsite", "stopBackendServer", "restartBackendServer",
   "installSqlite", "initSqliteDB", "runSqlQuery", "createChart", "renderTable",
   "displayLogs"]

inductive FOutcome where
  | ok (v : JValue)
  | err (e : String)
deriving DecidableEq

/-- One FunctionResult entry: the raw proposed name and the outcome. -/
structure FuncResult where
  function : Option JValue
  outcome : FOutcome
deriving DecidableEq

/-- The one system message the loop appends per FunctionResult. -/
def fmtResult (r : FuncResult) : Message :=
  match r.outcome with
  | .ok v => sysMsg ("✅ " ++ jsToStr? r.function ++ " succeeded: " ++ jsToString v)
  | .err e => sysMsg ("❌ " ++ jsToStr? r.function ++ " failed: " ++ e)

/-- FUNCTION_HANDLERS is a plain object literal, so the lookup
FUNCTION_HANDLERS[name] walks the prototype chain: these are the inherited
member names of Object.prototype, every one of which is a truthy value that
passes the if (handler) test and gets invoked like a handler. -/
def OBJECT_PROTOTYPE_KEYS : List String :=
  ["constructor", "hasOwnProperty", "isPrototypeOf", "propertyIsEnumerable",
   "toString", "toLocaleString", "valueOf", "__defineGetter__", "__defineSetter__",
   "__lookupGetter__", "__lookupSetter__", "__proto__"]

/-- Behavior of invoking an inherited Object.prototype member as
handler(arguments, projectId), i.e. with an undefined receiver (strict mode):
toString returns the text [object Undefined]; the Object constructor returns
its argument coerced to an object (a wrapper for a primitive, represented
here by the primitive itself, which stringifies identically in the summary
message); isPrototypeOf returns false on a non-object argument and only
reaches the receiver coercion (a TypeError) on an object one; the remaining
members coerce the undefined receiver first and throw a TypeError; reading
the accessor __proto__ yields the non-callable Object.prototype, so the call
itself throws.  TypeError texts are abbreviated from the engine wording. -/
def protoInvoke (key : String) (args : Option JValue) : FOutcome :=
  if key == "toString" then .ok (.str "[object Undefined]")
  else if key == "constructor" then
    match args with
    | none => .ok (.obj [])
    | some .null => .ok (.obj [])
    | some v => .ok v
  else if key == "isPrototypeOf" then
    match args with
    | some (.obj _) => .err "Cannot convert undefined or null to object"
    | some (.arr _) => .err "Cannot convert undefined or null to object"
    | _ => .ok (.bool false)
  else if key == "toLocaleString" then .err "Cannot read properties of undefined"
  else if key == "__proto__" then .err "handler is not a function"
  else .err "Cannot convert undefined or null to object"

/-- Outcome of executing one batch of proposed calls: a thrown TypeError
(property access on a null entry, which escapes to the outer catch), or the
collected names, results and the all-succeeded flag. -/
inductive BatchOut where
  | terr (m : String)
  | done (names : List (Option JValue)) (results : List FuncResult) (allOk : Bool)
deriving DecidableEq

/-- The per-call dispatch loop of orchestrateTasks, accumulator style as in
the source: push the proposed name and look the key up on the registry
object.  An own key invokes the registered handler; an inherited
Object.prototype member name also passes the truthiness test and is invoked
(protoInvoke); only a key absent from the whole chain records the Unknown
function error.  A thrown error is recorded as data per call; a null entry
throws a TypeError out of the whole batch (message text abbreviated from the
engine wording). -/
def runBatch (env : Env) (pid : String) (iter : Nat) :
    List JValue → Nat → List (Option JValue) → List FuncResult → Bool → BatchOut
  | [], _, names, results, allOk => .done names results allOk
  | item :: rest, idx, names, results, allOk =>
    match item with
    | .null => .terr "Cannot read properties of null"
    | _ =>
      let name := jget item "name"
      let key := jsToStr? name
      if FUNCTION_HANDLERS.contains key then
        match env.handler iter idx key (jget item "arguments") pid with
        | .success v =>
          runBatch env pid iter rest (idx + 1) (names ++ [name])
            (results ++ [⟨name, .ok v⟩]) allOk
        | .thrown m =>
          runBatch env pid iter rest (idx + 1) (names ++ [name])
            (results ++ [⟨name, .err m⟩]) false
      else if OBJECT_PROTOTYPE_KEYS.contains key then
        match protoInvoke key (jget item "arguments") with
        | .ok v =>
          runBatch env pid iter rest (idx + 1) (names ++ [name])
            (results ++ [⟨name, .ok v⟩]) allOk
        | .err m =>
          runBatch env pid iter rest (idx + 1) (names ++ [name])
            (results ++ [⟨name, .err m⟩]) false
      else
        runBatch env pid iter rest (idx + 1) (names ++ [name])
          (results ++ [⟨name, .err "Unknown function"⟩]) false

/-- The for-of iteration protocol on the function_calls value: arrays yield
their elements, strings their characters, anything else throws a TypeError. -/
inductive JsSeq where
  | items (xs : List JValue)
  | notIterable
deriving DecidableEq

def jsIterate : Option JValue → JsSeq
  | some (.arr xs) => .items xs
  | some (.str s) => .items (s.toList.map (fun c => .str (String.mk [c])))
  | _ => .notIterable

/-- The meta-action broadcast step: when the value is truthy with positive
length, forEach over it emits every entry on an array and throws a TypeError
on anything else (a string); otherwise nothing is emitted. -/
inductive MetaOut where
  | emit (xs : List JValue)
  | throwMsg (m : String)
deriving DecidableEq

def metaEmit (ma : Option JValue) : MetaOut :=
  if jsTruthy ma && ((jsLenOpt ma).getD 0 > 0) then
    match ma with
    | some (.arr xs) => .emit xs
    | _ => .throwMsg "parsedResponse.meta_actions.forEach is not a function"
  else .emit []

/-- Array.prototype.join with the comma separator over the pushed raw names
(undefined and null join as the empty string). -/
def jsJoinNames (names : List (Option JValue)) : String :=
  String.intercalate ","
    (names.map (fun n =>
      match n with
      | none => ""
      | some .null => ""
      | some v => jsToString v))

/-- The per-run orchestration state.  messages, iteration, lastFunctionCalls
and consecutiveFailures mirror the source locals; emits (metaAction payloads
broadcast by the orchestrator), calls (model consultations made) and batches
(the ordered name list of every executed call batch) are observation-only
ghost logs that no branch reads. -/
structure OState where
  iteration : Nat
  lastFunctionCalls : List (Option JValue)
  consecutiveFailures : Nat
  messages : List Message
  emits : List JValue
  calls : Nat
  batches : List (List (Option JValue))
deriving DecidableEq

inductive StepResult where
  | broke (s : OState)
  | next (s : OState)
deriving DecidableEq

def stepState : StepResult → OState
  | .broke s => s
  | .next s => s

def errMsg (m : String) : Message := sysMsg ("Error during orchestration: " ++ m)

def multFailMsg : Message := sysMsg "Multiple consecutive failures. Ending orchestration."

def adjustMsg : Message :=
  sysMsg "Some tasks failed. Please adjust your instructions or try a different approach."

def repeatingMsg : Message :=
  sysMsg "You are repeating the same function calls as before. Please propose a different approach or end."

def maxIterMsg : Message := sysMsg "Max iterations reached. Orchestration ended."

/-- Repeat detection, lastFunctionCalls update and meta-action broadcast at
the end of a completed iteration (source lines 1180-1199). -/
def iterTail2 (s1 : OState) (parsed : JValue) (msgs3 : List Message)
    (names : List (Option JValue)) (cf1 : Nat)
    (batches1 : List (List (Option JValue))) : StepResult :=
  let msgs4 :=
    if jsJoinNames names == jsJoinNames s1.lastFunctionCalls then msgs3 ++ [repeatingMsg]
    else msgs3
  match metaEmit (jget parsed "meta_actions") with
  | .throwMsg m =>
    .broke { s1 with consecutiveFailures := cf1, lastFunctionCalls := names,
                     messages := msgs4 ++ [errMsg m], batches := batches1 }
  | .emit xs =>
    .next { s1 with iteration := s1.iteration + 1, consecutiveFailures := cf1,
                    lastFunctionCalls := names, messages := msgs4,
                    emits := s1.emits ++ xs, batches := batches1 }

/-- Result recording and the failure-streak policy after a batch has executed
(source lines 1144-1178): one system message per result, then on a failing
iteration increment consecutiveFailures and stop at three (before the repeat
check), otherwise reset the counter to zero. -/
def iterTail (s1 : OState) (parsed : JValue) (msgs1 : List Message)
    (names : List (Option JValue)) (results : List FuncResult) (allOk : Bool) : StepResult :=
  let msgs2 := msgs1 ++ results.map fmtResult
  let batches1 := s1.batches ++ [names]
  if ¬ allOk then
    let cf1 := s1.consecutiveFailures + 1
    if cf1 ≥ 3 then
      .broke { s1 with consecutiveFailures := cf1,
                       messages := msgs2 ++ [multFailMsg], batches := batches1 }
    else iterTail2 s1 parsed (msgs2 ++ [adjustMsg]) names cf1 batches1
  else iterTail2 s1 parsed msgs2 names 0 batches1

/-- One iteration of the while loop of orchestrateTasks: consult the model,
handle the empty and unparsable replies, take the zero-call branch, or
execute the proposed batch; a broke result models a break (or the caught
unexpected exception), a next result a completed iteration. -/
def orchIteration (env : Env) (pid : String) (s : OState) : StepResult :=
  match env.llm s.messages with
  | .raise e => .broke { s with calls := s.calls + 1, messages := s.messages ++ [errMsg e] }
  | .content c =>
    let s1 := { s with calls := s.calls + 1 }
    match c.map jsTrim with
    | none => .broke s1
    | some r =>
      if r = "" then .broke s1
      else
        match extractJSONFromResponse r with
        | none => .broke { s1 with messages := s1.messages ++ [⟨.assistant, some (.str r)⟩] }
        | some parsed =>
          let msgs1 := s1.messages ++ [⟨.assistant, jget parsed "explanation"⟩]
          let fc := jget parsed "function_calls"
          if ¬ jsTruthy fc || jsLenOpt fc == some 0 then
            match metaEmit (jget parsed "meta_actions") with
            | .emit xs => .broke { s1 with messages := msgs1, emits := s1.emits ++ xs }
            | .throwMsg m => .broke { s1 with messages := msgs1 ++ [errMsg m] }
          else
            match jsIterate fc with
            | .notIterable =>
              .broke { s1 with messages :=
                msgs1 ++ [errMsg "parsedResponse.function_calls is not iterable"] }
            | .items items =>
              match runBatch env pid s.iteration items 0 [] [] true with
              | .terr m => .broke { s1 with messages := msgs1 ++ [errMsg m] }
              | .done names results allOk => iterTail s1 parsed msgs1 names results allOk

def MAX_ITERATIONS : Nat := 20

/-- The while loop, fuel-indexed: the fuel is MAX_ITERATIONS minus the
iteration counter, so running out of fuel is exactly the loop condition
turning false. -/
def orchGo (env : Env) (pid : String) : Nat → OState → OState
  | 0, s => s
  | f + 1, s =>
    match orchIteration env pid s with
    | .broke s1 => s1
    | .next s1 => orchGo env pid f s1

def initState (seed : List Message) : OState :=
  { iteration := 0, lastFunctionCalls := [], consecutiveFailures := 0,
    messages := seed, emits := [], calls := 0, batches := [] }

/-- The post-loop bound check of the source: when the loop left with the
iteration counter at the maximum, append the bound notice. -/
def finishRun (s : OState) : OState :=
  if s.iteration == MAX_ITERATIONS then { s with messages := s.messages ++ [maxIterMsg] }
  else s

def orchResume (env : Env) (pid : String) (fuel : Nat) (s : OState) : OState :=
  finishRun (orchGo env pid fuel s)

/-- Model of orchestrateTasks: run the loop from the seed transcript and
apply the post-loop bound check; the returned state carries the final
transcript. -/
def orchestrateTasks (env : Env) (pid : String) (initialMessages : List Message) : OState :=
  orchResume env pid MAX_ITERATIONS (initState initialMessages)

-- ------------------ File sandbox: validateFilePath and handlers ------------------

def prefixOfB : List Char → List Char → Bool
  | [], _ => true
  | _ :: _, [] => false
  | a :: as, b :: bs => a == b && prefixOfB as bs

def infixOfB (pat : List Char) : List Char → Bool
  | [] => prefixOfB pat []
  | c :: rest => prefixOfB pat (c :: rest) || infixOfB pat rest

def strPrefixOf (a b : String) : Bool := prefixOfB a.toList b.toList

def splitOnCharAux (sep : Char) : List Char → List Char → List (List Char)
  | acc, [] => [acc.reverse]
  | acc, c :: cs =>
    if c == sep then acc.reverse :: splitOnCharAux sep [] cs
    else splitOnCharAux sep (c :: acc) cs

/-- Split a POSIX path into segments. -/
def splitSegs (s : String) : List String := (splitOnCharAux '/' [] s.toList).map String.mk

def toLowerStr (s : String) : String := String.mk (s.toList.map Char.toLower)

/-- Normalisation stack for absolute paths: empty and dot segments vanish,
dot-dot pops (staying at the root), everything else pushes. -/
def normStack : List String → List String → List String
  | stack, [] => stack
  | stack, seg :: rest =>
    if seg == "" || seg == "." then normStack stack rest
    else if seg == ".." then normStack stack.dropLast rest
    else normStack (stack ++ [seg]) rest

def joinAbs (segs : List String) : String := "/" ++ String.intercalate "/" segs

/-- Model of path.resolve for an absolute base: an absolute argument is
normalised on its own, a relative one against the base. -/
def pathResolve (base p : String) : String :=
  if strPrefixOf "/" p then joinAbs (normStack [] (splitSegs p))
  else joinAbs (normStack [] (splitSegs base ++ splitSegs p))

/-- Model of path.join for an absolute first argument. -/
def pathJoin (a b : String) : String :=
  joinAbs (normStack [] (splitSegs a ++ splitSegs b))

/-- Model of path.extname: the suffix of the basename from its last dot, with
a dot in first position not counting as an extension marker. -/
def extnameOf (p : String) : String :=
  let base := ((splitSegs p).getLast?).getD ""
  let cs := base.toList
  match lastIdxOfChar '.' cs with
  | none => ""
  | some 0 => ""
  | some i => String.mk (cs.drop i)

def ALLOWED_EXTENSIONS : List String := [".html", ".css", ".js"]

/-- PROJECTS_DIR of the source is path.join of the module directory with
projects; the module directory is a parameter of the model. -/
def PROJECTS_DIR (dirname : String) : String := pathJoin dirname "projects"

/-- Model of validateFilePath: resolve the filename against the project
directory, require the resolved STRING to start with the project directory
string (the source check), and require an allowed extension. -/
def validateFilePath (dirname pid filename : String) : Bool :=
  let projectDir := pathJoin (PROJECTS_DIR dirname) pid
  let resolved := pathResolve projectDir filename
  if ¬ strPrefixOf projectDir resolved then false
  else ALLOWED_EXTENSIONS.contains (toLowerStr (extnameOf resolved))

/-- Spec-side notion used by the claim: the path is the directory itself or
lies below it (directory-boundary aware, unlike the raw string prefix). -/
def pathWithin (dir p : String) : Bool := p == dir || strPrefixOf (dir ++ "/") p

/-- File-system state: an append-to-override map from absolute path to
content, plus the backup copies made (backup file naming by timestamp is
abstracted into a caller-supplied tag). -/
structure FsState where
  files : List (String × String)
  backups : List (String × String)
deriving DecidableEq

def fsGet (fs : FsState) (p : String) : Option String :=
  ((fs.files.filter (fun e => e.1 == p)).getLast?).map (fun e => e.2)

def fsSet (fs : FsState) (p c : String) : FsState :=
  { fs with files := fs.files ++ [(p, c)] }

def fsDel (fs : FsState) (p : String) : FsState :=
  { fs with files := fs.files.filter (fun e => ¬ e.1 == p) }

/-- Model of createBackup: when the original exists, record a copy of its
content under the backups directory of the project. -/
def createBackup (dirname pid filename ts : String) (fs : FsState) : FsState :=
  let projectDir := pathJoin (PROJECTS_DIR dirname) pid
  let originalFile := pathJoin projectDir filename
  match fsGet fs originalFile with
  | some content =>
    { fs with backups := fs.backups ++
        [(pathJoin (pathJoin projectDir ".backups") (filename ++ "." ++ ts ++ ".bak"), content)] }
  | none => fs

/-- Outcome of a sandbox file operation: a returned value with the resulting
file-system state, or a thrown error message. -/
inductive FsOut where
  | ok (v : String) (fs : FsState)
  | thrown (e : String)
deriving DecidableEq

/-- Model of the readFile handler. -/
def readFileHandler (dirname pid filename : String) (fs : FsState) : FsOut :=
  if ¬ validateFilePath dirname pid filename then .thrown "Invalid file path"
  else
    let filePath := pathJoin (pathJoin (PROJECTS_DIR dirname) pid) filename
    match fsGet fs filePath with
    | none => .thrown "File does not exist"
    | some content => .ok content fs

/-- Model of the writeFile handler: validate, back up, overwrite (the
metaAction broadcast of the source is outside the file-system effect). -/
def writeFileHandler (dirname pid filename content ts : String) (fs : FsState) : FsOut :=
  if ¬ validateFilePath dirname pid filename then .thrown "Invalid file path"
  else
    let fs1 := createBackup dirname pid filename ts fs
    let filePath := pathJoin (pathJoin (PROJECTS_DIR dirname) pid) filename
    .ok ("File " ++ filename ++ " written successfully.") (fsSet fs1 filePath content)

/-- Model of the createFile handler. -/
def createFileHandler (dirname pid filename content : String) (fs : FsState) : FsOut :=
  if ¬ validateFilePath dirname pid filename then .thrown "Invalid file path"
  else
    let filePath := pathJoin (pathJoin (PROJECTS_DIR dirname) pid) filename
    match fsGet fs filePath with
    | some _ => .thrown "File already exists"
    | none => .ok ("File " ++ filename ++ " created successfully.") (fsSet fs filePath content)

/-- Model of the deleteFile handler. -/
def deleteFileHandler (dirname pid filename ts : String) (fs : FsState) : FsOut :=
  if ¬ validateFilePath dirname pid filename then .thrown "Invalid file path"
  else
    let filePath := pathJoin (pathJoin (PROJECTS_DIR dirname) pid) filename
    match fsGet fs filePath with
    | none => .thrown "File does not exist"
    | some _ =>
      let fs1 := createBackup dirname pid filename ts fs
      .ok ("File " ++ filename ++ " deleted successfully.") (fsDel fs1 filePath)

-- ------------------ Spec-side definitions for the claims ------------------

/-- Spec-side: the text has some well-formed top-level JSON-object substring. -/
def hasJsonObjSubstring (s : String) : Bool :=
  let cs := s.toList
  (List.range (cs.length + 1)).any (fun i =>
    (List.range (cs.length + 1)).any (fun j =>
      decide (i < j) &&
        (match jsonParse (String.mk ((cs.drop i).take (j - i))) with
         | some (.obj _) => true
         | _ => false)))

/-- The dispatch outcome of one proposed call with the given batch index: an
own registry key invokes the handler (a throwing one yields its message,
success records the returned value), an inherited Object.prototype member is
invoked through protoInvoke, and only a key on neither yields the Unknown
function error. -/
def callResult (env : Env) (pid : String) (iter idx : Nat) (item : JValue) : FuncResult :=
  let name := jget item "name"
  let key := jsToStr? name
  if FUNCTION_HANDLERS.contains key then
    match env.handler iter idx key (jget item "arguments") pid with
    | .success v => ⟨name, .ok v⟩
    | .thrown m => ⟨name, .err m⟩
  else if OBJECT_PROTOTYPE_KEYS.contains key then
    match protoInvoke key (jget item "arguments") with
    | .ok v => ⟨name, .ok v⟩
    | .err m => ⟨name, .err m⟩
  else ⟨name, .err "Unknown function"⟩

/-- Independent per-call dispatch in proposal order, starting at the given
batch index. -/
def batchSpec (env : Env) (pid : String) (iter : Nat) : Nat → List JValue → List FuncResult
  | _, [] => []
  | idx, item :: rest => callResult env pid iter idx item :: batchSpec env pid iter (idx + 1) rest

def resultsAllOk (rs : List FuncResult) : Bool :=
  rs.all (fun r =>
    match r.outcome with
    | .ok _ => true
    | .err _ => false)

-- ------------------ Concrete environments used by witnesses ------------------

def seedW : List Message := [⟨.user, some (.str "go")⟩]

def envWC2 : Env :=
  { llm := fun _ => .content (some "  plain text  "),
    handler := fun _ _ _ _ _ => .success .null }

def envWC9 : Env :=
  { llm := fun _ => .raise "network down",
    handler := fun _ _ _ _ _ => .success .null }

def replyWC10 : String := "\x7b\"foo\":1\x7d"

def parsedWC10 : JValue := .obj [("foo", .num "1")]

def envWC10 : Env :=
  { llm := fun _ => .content (some replyWC10),
    handler := fun _ _ _ _ _ => .success .null }

def replyWC5 : String :=
  "\x7b\"explanation\":\"done\",\"function_calls\":[],\"meta_actions\":[\x7b\"action\":\"a\",\"target\":\"t\",\"data\":\x7b\x7d\x7d]\x7d"

def parsedWC5 : JValue :=
  .obj [("explanation", .str "done"), ("function_calls", .arr []),
        ("meta_actions", .arr [.obj [("action", .str "a"), ("target", .str "t"), ("data", .obj [])]])]

def masWC5 : List JValue := [.obj [("action", .str "a"), ("target", .str "t"), ("data", .obj [])]]

def envWC5 : Env :=
  { llm := fun _ => .content (some replyWC5),
    handler := fun _ _ _ _ _ => .success .null }

def c1reply : String :=
  "\x7b\"explanation\":\"e\",\"function_calls\":[\x7b\"name\":\"refreshUI\",\"arguments\":\x7b\x7d\x7d]\x7d"

def envWC1 : Env :=
  { llm := fun _ => .content (some c1reply),
    handler := fun _ _ _ _ _ => .success (.str "ok") }

def itemsW : List JValue :=
  [.obj [("name", .str "readFile"), ("arguments", .obj [])], .obj [("name", .str "nope")]]

def envWC7 : Env :=
  { llm := fun _ => .content none,
    handler := fun _ _ _ _ _ => .thrown "boom" }

def replyBad : String :=
  "\x7b\"explanation\":\"e\",\"function_calls\":[\x7b\"name\":\"zzz\",\"arguments\":\x7b\x7d\x7d]\x7d"

def parsedBad : JValue :=
  .obj [("explanation", .str "e"),
        ("function_calls", .arr [.obj [("name", .str "zzz"), ("arguments", .obj [])]])]

def itemsBad : List JValue := [.obj [("name", .str "zzz"), ("arguments", .obj [])]]

def envWC4 : Env :=
  { llm := fun _ => .content (some replyBad),
    handler := fun _ _ _ _ _ => .success .null }

def sW4 : OState :=
  { iteration := 2, lastFunctionCalls := [some (.str "a")], consecutiveFailures := 2,
    messages := [⟨.user, some (.str "go")⟩], emits := [], calls := 2,
    batches := [[some (.str "a")]] }

def replyRepA : String :=
  "\x7b\"explanation\":\"e\",\"function_calls\":[\x7b\"name\":\"a\",\"arguments\":\x7b\x7d\x7d]\x7d"

def replyRepB : String :=
  "\x7b\"explanation\":\"e\",\"function_calls\":[\x7b\"name\":\"b\",\"arguments\":\x7b\x7d\x7d]\x7d"

def envC6 : Env :=
  { llm := fun ms => .content (some (if ms.length ≤ 1 then replyRepA else replyRepB)),
    handler := fun _ _ _ _ _ => .success .null }

def msgContains (sub : String) (m : Message) : Bool :=
  match m.content with
  | some (.str s) => infixOfB sub.toList s.toList
  | _ => false

def parsedRep : JValue :=
  .obj [("explanation", .str "e"),
        ("function_calls", .arr [.obj [("name", .str "refreshUI"), ("arguments", .obj [])]])]

def itemsRep : List JValue := [.obj [("name", .str "refreshUI"), ("arguments", .obj [])]]

def sW6 : OState :=
  { iteration := 1, lastFunctionCalls := [some (.str "refreshUI")], consecutiveFailures := 0,
    messages := [⟨.user, some (.str "go")⟩], emits := [], calls := 1,
    batches := [[some (.str "refreshUI")]] }

-- ------------------ Theorems ------------------

/-- C2: at any loop state whose iteration counter is not yet at the bound, if
the model returns a nonempty reply whose trimmed text does not yield a parse,
the run returns immediately with exactly the raw (trimmed) reply appended as
an assistant message, that message is the last of the returned transcript, no
call batch executes then or later, and exactly one model call was spent; the
reply is stored as an assistant message, not as an error. -/
theorem claim_C2 (env : Env) (pid : String) (f : Nat) (s : OState) (r0 : String)
    (hllm : env.llm s.messages = .content (some r0))
    (hne : ¬ (jsTrim r0 = ""))
    (hex : extractJSONFromResponse (jsTrim r0) = none)
    (hit : ¬ (s.iteration = MAX_ITERATIONS)) :
    orchResume env pid (f + 1) s =
      { s with calls := s.calls + 1,
               messages := s.messages ++ [⟨.assistant, some (.str (jsTrim r0))⟩] } ∧
    (orchResume env pid (f + 1) s).messages.getLast? =
      some ⟨Role.assistant, some (.str (jsTrim r0))⟩ ∧
    (orchResume env pid (f + 1) s).batches = s.batches := by
  have hstep : orchIteration env pid s =
      .broke { s with calls := s.calls + 1,
                      messages := s.messages ++ [⟨.assistant, some (.str (jsTrim r0))⟩] } := by
    simp [orchIteration, hllm, hne, hex]
  have hres : orchResume env pid (f + 1) s =
      { s with calls := s.calls + 1,
               messages := s.messages ++ [⟨.assistant, some (.str (jsTrim r0))⟩] } := by
    simp [orchResume, orchGo, hstep, finishRun, hit]
  refine ⟨hres, ?_, ?_⟩
  · rw [hres]
    simp [List.getLast?_append_of_ne_nil]
  · rw [hres]

/-- C9: at any loop state whose iteration counter is not yet at the bound, if
contacting the model throws, the run stops at once with exactly one system
message describing the error appended, the model call is not retried (one
call spent in total) and no batch executes afterwards; the transcript so far
plus that message is returned. -/
theorem claim_C9 (env : Env) (pid : String) (f : Nat) (s : OState) (e : String)
    (hllm : env.llm s.messages = .raise e)
    (hit : ¬ (s.iteration = MAX_ITERATIONS)) :
    orchResume env pid (f + 1) s =
      { s with calls := s.calls + 1, messages := s.messages ++ [errMsg e] } ∧
    (orchResume env pid (f + 1) s).messages.getLast? = some (errMsg e) ∧
    (orchResume env pid (f + 1) s).batches = s.batches := by
  have hstep : orchIteration env pid s =
      .broke { s with calls := s.calls + 1, messages := s.messages ++ [errMsg e] } := by
    simp [orchIteration, hllm]
  have hres : orchResume env pid (f + 1) s =
      { s with calls := s.calls + 1, messages := s.messages ++ [errMsg e] } := by
    simp [orchResume, orchGo, hstep, finishRun, hit]
  refine ⟨hres, ?_, ?_⟩
  · rw [hres]
    simp [List.getLast?_append_of_ne_nil]
  · rw [hres]

/-- C10: the parse step does no schema validation: when the extracted block
parses to an object lacking a function_calls field (and, in this canonical
shape, lacking meta_actions), the run takes the successful-parse zero-call
branch, appends one assistant message whose content is the explanation
property of the object (undefined, i.e. none, when absent), terminates that
same iteration with no batch executed, and the raw reply text is not what is
stored. -/
theorem claim_C10 (env : Env) (pid : String) (f : Nat) (s : OState) (r0 : String)
    (parsed : JValue)
    (hllm : env.llm s.messages = .content (some r0))
    (hne : ¬ (jsTrim r0 = ""))
    (hex : extractJSONFromResponse (jsTrim r0) = some parsed)
    (hfc : jget parsed "function_calls" = none)
    (hma : jget parsed "meta_actions" = none)
    (hit : ¬ (s.iteration = MAX_ITERATIONS)) :
    orchResume env pid (f + 1) s =
      { s with calls := s.calls + 1,
               messages := s.messages ++ [⟨.assistant, jget parsed "explanation"⟩] } ∧
    (orchResume env pid (f + 1) s).batches = s.batches := by
  have hstep : orchIteration env pid s =
      .broke { s with calls := s.calls + 1,
                      messages := s.messages ++ [⟨.assistant, jget parsed "explanation"⟩] } := by
    simp [orchIteration, hllm, hne, hex, hfc, hma, jsTruthy, jsLenOpt, metaEmit]
  have hres : orchResume env pid (f + 1) s =
      { s with calls := s.calls + 1,
               messages := s.messages ++ [⟨.assistant, jget parsed "explanation"⟩] } := by
    simp [orchResume, orchGo, hstep, finishRun, hit]
  exact ⟨hres, by rw [hres]⟩

/-- C5: when the parsed response proposes an empty function_calls array and
carries a meta_actions array, every meta-action entry is broadcast, the run
terminates that same iteration, consecutiveFailures is untouched and no
batch executes. -/
theorem claim_C5 (env : Env) (pid : String) (f : Nat) (s : OState) (r0 : String)
    (parsed : JValue) (mas : List JValue)
    (hllm : env.llm s.messages = .content (some r0))
    (hne : ¬ (jsTrim r0 = ""))
    (hex : extractJSONFromResponse (jsTrim r0) = some parsed)
    (hfc : jget parsed "function_calls" = some (.arr []))
    (hma : jget parsed "meta_actions" = some (.arr mas))
    (hit : ¬ (s.iteration = MAX_ITERATIONS)) :
    orchResume env pid (f + 1) s =
      { s with calls := s.calls + 1,
               messages := s.messages ++ [⟨.assistant, jget parsed "explanation"⟩],
               emits := s.emits ++ mas } ∧
    (orchResume env pid (f + 1) s).consecutiveFailures = s.consecutiveFailures ∧
    (orchResume env pid (f + 1) s).batches = s.batches := by
  have hme : metaEmit (jget parsed "meta_actions") = .emit mas := by
    rw [hma]
    cases mas with
    | nil => simp [metaEmit, jsTruthy, jsLenOpt, jsLength]
    | cons x xs => simp [metaEmit, jsTruthy, jsLenOpt, jsLength]
  have hstep : orchIteration env pid s =
      .broke { s with calls := s.calls + 1,
                      messages := s.messages ++ [⟨.assistant, jget parsed "explanation"⟩],
                      emits := s.emits ++ mas } := by
    simp [orchIteration, hllm, hne, hex, hfc, hme, jsTruthy, jsLenOpt, jsLength]
  have hres : orchResume env pid (f + 1) s =
      { s with calls := s.calls + 1,
               messages := s.messages ++ [⟨.assistant, jget parsed "explanation"⟩],
               emits := s.emits ++ mas } := by
    simp [orchResume, orchGo, hstep, finishRun, hit]
  exact ⟨hres, by rw [hres], by rw [hres]⟩

/-- Witness for C2 at a concrete unparsable reply. -/
theorem claim_C2_witness :
    orchResume envWC2 "p" (19 + 1) (initState seedW) =
      { initState seedW with
          calls := (initState seedW).calls + 1,
          messages := (initState seedW).messages ++
            [⟨.assistant, some (.str (jsTrim "  plain text  "))⟩] } ∧
    (orchResume envWC2 "p" (19 + 1) (initState seedW)).messages.getLast? =
      some ⟨Role.assistant, some (.str (jsTrim "  plain text  "))⟩ ∧
    (orchResume envWC2 "p" (19 + 1) (initState seedW)).batches = (initState seedW).batches :=
  claim_C2 envWC2 "p" 19 (initState seedW) "  plain text  " rfl (by decide) (by decide)
    (by decide)

/-- Witness for C9 at a concrete throwing client. -/
theorem claim_C9_witness :
    orchResume envWC9 "p" (19 + 1) (initState seedW) =
      { initState seedW with
          calls := (initState seedW).calls + 1,
          messages := (initState seedW).messages ++ [errMsg "network down"] } ∧
    (orchResume envWC9 "p" (19 + 1) (initState seedW)).messages.getLast? =
      some (errMsg "network down") ∧
    (orchResume envWC9 "p" (19 + 1) (initState seedW)).batches = (initState seedW).batches :=
  claim_C9 envWC9 "p" 19 (initState seedW) "network down" rfl (by decide)

/-- Witness for C10 at a reply whose object has none of the expected fields. -/
theorem claim_C10_witness :
    orchResume envWC10 "p" (19 + 1) (initState seedW) =
      { initState seedW with
          calls := (initState seedW).calls + 1,
          messages := (initState seedW).messages ++
            [⟨.assistant, jget parsedWC10 "explanation"⟩] } ∧
    (orchResume envWC10 "p" (19 + 1) (initState seedW)).batches = (initState seedW).batches :=
  claim_C10 envWC10 "p" 19 (initState seedW) replyWC10 parsedWC10 rfl (by decide) (by decide)
    (by decide) (by decide) (by decide)

/-- Witness for C5 at a reply with an empty call list and one meta-action. -/
theorem claim_C5_witness :
    orchResume envWC5 "p" (19 + 1) (initState seedW) =
      { initState seedW with
          calls := (initState seedW).calls + 1,
          messages := (initState seedW).messages ++
            [⟨.assistant, jget parsedWC5 "explanation"⟩],
          emits := (initState seedW).emits ++ masWC5 } ∧
    (orchResume envWC5 "p" (19 + 1) (initState seedW)).consecutiveFailures =
      (initState seedW).consecutiveFailures ∧
    (orchResume envWC5 "p" (19 + 1) (initState seedW)).batches = (initState seedW).batches :=
  claim_C5 envWC5 "p" 19 (initState seedW) replyWC5 parsedWC5 masWC5 rfl (by decide) (by decide)
    (by decide) (by decide) (by decide)

-- ------------------ Lemmas for the iteration bound ------------------

theorem iterTail2_calls (s1 : OState) (parsed : JValue) (m : List Message)
    (n : List (Option JValue)) (cf : Nat) (b : List (List (Option JValue))) :
    (stepState (iterTail2 s1 parsed m n cf b)).calls = s1.calls := by
  simp only [iterTail2]
  split <;> rfl

theorem iterTail_calls (s1 : OState) (parsed : JValue) (m : List Message)
    (n : List (Option JValue)) (rs : List FuncResult) (ok : Bool) :
    (stepState (iterTail s1 parsed m n rs ok)).calls = s1.calls := by
  simp only [iterTail]
  split
  · split
    · rfl
    · apply iterTail2_calls
  · apply iterTail2_calls

theorem orchIteration_calls (env : Env) (pid : String) (s : OState) :
    (stepState (orchIteration env pid s)).calls = s.calls + 1 := by
  simp only [orchIteration]
  cases env.llm s.messages with
  | raise e => rfl
  | content c =>
    cases c with
    | none => rfl
    | some r0 =>
      simp only [Option.map_some']
      split
      · rfl
      · split
        · rfl
        · split
          · split <;> rfl
          · split
            · rfl
            · split
              · rfl
              · exact iterTail_calls ..

theorem orchGo_calls_le (env : Env) (pid : String) :
    ∀ (f : Nat) (s : OState), (orchGo env pid f s).calls ≤ s.calls + f := by
  intro f
  induction f with
  | zero => intro s; simp [orchGo]
  | succ f ih =>
    intro s
    cases h : orchIteration env pid s with
    | broke s1 =>
      have h2 := orchIteration_calls env pid s
      rw [h] at h2
      simp only [stepState] at h2
      have h4 : orchGo env pid (f + 1) s = s1 := by simp [orchGo, h]
      rw [h4]
      omega
    | next s1 =>
      have h2 := orchIteration_calls env pid s
      rw [h] at h2
      simp only [stepState] at h2
      have h4 : orchGo env pid (f + 1) s = orchGo env pid f s1 := by simp [orchGo, h]
      rw [h4]
      have h3 := ih s1
      omega

theorem finishRun_calls (s : OState) : (finishRun s).calls = s.calls := by
  unfold finishRun
  split <;> rfl

/-- C1: for every seed transcript and every behavior of the model client and
the handlers, one run makes at most MAX_ITERATIONS = 20 model calls; and when
the loop leaves with the iteration counter at the bound (all twenty
iterations completed), the bound notice is the last message of the returned
transcript. -/
theorem claim_C1 (env : Env) (pid : String) (seed : List Message) :
    (orchestrateTasks env pid seed).calls ≤ MAX_ITERATIONS ∧
    ((orchGo env pid MAX_ITERATIONS (initState seed)).iteration = MAX_ITERATIONS →
      (orchestrateTasks env pid seed).messages.getLast? = some maxIterMsg) := by
  constructor
  · have h := orchGo_calls_le env pid MAX_ITERATIONS (initState seed)
    simpa [orchestrateTasks, orchResume, finishRun_calls, initState] using h
  · intro h
    simp only [orchestrateTasks, orchResume, finishRun, h, beq_self_eq_true, if_true]
    simp [List.getLast?_append_of_ne_nil]

/-- Witness for C1: an environment that always proposes the same succeeding
call runs all twenty iterations and ends on the bound notice. -/
theorem claim_C1_witness :
    (orchGo envWC1 "p" MAX_ITERATIONS (initState seedW)).iteration = MAX_ITERATIONS ∧
    (orchestrateTasks envWC1 "p" seedW).messages.getLast? = some maxIterMsg :=
  ⟨by decide, (claim_C1 envWC1 "p" seedW).2 (by decide)⟩

-- ------------------ Lemmas for batch dispatch ------------------

theorem runBatch_cons (env : Env) (pid : String) (iter idx : Nat) (item : JValue)
    (rest : List JValue) (names : List (Option JValue)) (results : List FuncResult)
    (allOk : Bool) (hni : item ≠ JValue.null) :
    runBatch env pid iter (item :: rest) idx names results allOk =
      runBatch env pid iter rest (idx + 1) (names ++ [jget item "name"])
        (results ++ [callResult env pid iter idx item])
        (allOk && resultsAllOk [callResult env pid iter idx item]) := by
  cases item with
  | null => exact absurd rfl hni
  | bool b =>
    simp only [runBatch, callResult]
    split
    · cases henv : env.handler iter idx (jsToStr? (jget (JValue.bool b) "name"))
          (jget (JValue.bool b) "arguments") pid <;> simp [resultsAllOk, henv]
    · split
      · cases hp : protoInvoke (jsToStr? (jget (JValue.bool b) "name"))
            (jget (JValue.bool b) "arguments") <;> simp [resultsAllOk, hp]
      · simp [resultsAllOk]
  | num t =>
    simp only [runBatch, callResult]
    split
    · cases henv : env.handler iter idx (jsToStr? (jget (JValue.num t) "name"))
          (jget (JValue.num t) "arguments") pid <;> simp [resultsAllOk, henv]
    · split
      · cases hp : protoInvoke (jsToStr? (jget (JValue.num t) "name"))
            (jget (JValue.num t) "arguments") <;> simp [resultsAllOk, hp]
      · simp [resultsAllOk]
  | str s =>
    simp only [runBatch, callResult]
    split
    · cases henv : env.handler iter idx (jsToStr? (jget (JValue.str s) "name"))
          (jget (JValue.str s) "arguments") pid <;> simp [resultsAllOk, henv]
    · split
      · cases hp : protoInvoke (jsToStr? (jget (JValue.str s) "name"))
            (jget (JValue.str s) "arguments") <;> simp [resultsAllOk, hp]
      · simp [resultsAllOk]
  | arr xs =>
    simp only [runBatch, callResult]
    split
    · cases henv : env.handler iter idx (jsToStr? (jget (JValue.arr xs) "name"))
          (jget (JValue.arr xs) "arguments") pid <;> simp [resultsAllOk, henv]
    · split
      · cases hp : protoInvoke (jsToStr? (jget (JValue.arr xs) "name"))
            (jget (JValue.arr xs) "arguments") <;> simp [resultsAllOk, hp]
      · simp [resultsAllOk]
  | obj fs =>
    simp only [runBatch, callResult]
    split
    · cases henv : env.handler iter idx (jsToStr? (jget (JValue.obj fs) "name"))
          (jget (JValue.obj fs) "arguments") pid <;> simp [resultsAllOk, henv]
    · split
      · cases hp : protoInvoke (jsToStr? (jget (JValue.obj fs) "name"))
            (jget (JValue.obj fs) "arguments") <;> simp [resultsAllOk, hp]
      · simp [resultsAllOk]

theorem runBatch_spec (env : Env) (pid : String) (iter : Nat) :
    ∀ (items : List JValue), JValue.null ∉ items →
      ∀ (idx : Nat) (names : List (Option JValue)) (results : List FuncResult) (allOk : Bool),
        runBatch env pid iter items idx names results allOk =
          .done (names ++ items.map (fun it => jget it "name"))
                (results ++ batchSpec env pid iter idx items)
                (allOk && resultsAllOk (batchSpec env pid iter idx items)) := by
  intro items
  induction items with
  | nil =>
    intro _ idx names results allOk
    simp [runBatch, batchSpec, resultsAllOk]
  | cons item rest ih =>
    intro hnn idx names results allOk
    have hnr : JValue.null ∉ rest := fun h => hnn (List.mem_cons_of_mem _ h)
    have hni : item ≠ JValue.null := fun h => hnn (h ▸ List.mem_cons_self _ _)
    rw [runBatch_cons env pid iter idx item rest names results allOk hni,
      ih hnr (idx + 1) (names ++ [jget item "name"])
        (results ++ [callResult env pid iter idx item])
        (allOk && resultsAllOk [callResult env pid iter idx item])]
    simp [batchSpec, resultsAllOk, Bool.and_assoc]

theorem batchSpec_get (env : Env) (pid : String) (iter : Nat) :
    ∀ (items : List JValue) (k idx : Nat),
      (batchSpec env pid iter k items).get? idx =
        (items.get? idx).map (callResult env pid iter (k + idx)) := by
  intro items
  induction items with
  | nil => intro k idx; simp [batchSpec]
  | cons item rest ih =>
    intro k idx
    cases idx with
    | zero => simp [batchSpec]
    | succ idx =>
      simp only [batchSpec, List.get?_cons_succ, ih (k + 1) idx]
      have : k + 1 + idx = k + (idx + 1) := by omega
      rw [this]

theorem iterTail2_messages (s1 : OState) (parsed : JValue) (msgs3 : List Message)
    (n : List (Option JValue)) (cf : Nat) (b : List (List (Option JValue))) :
    ∃ tail, (stepState (iterTail2 s1 parsed msgs3 n cf b)).messages = msgs3 ++ tail := by
  cases hm : metaEmit (jget parsed "meta_actions") with
  | emit xs =>
    cases hc : jsJoinNames n == jsJoinNames s1.lastFunctionCalls with
    | true => exact ⟨[repeatingMsg], by simp [iterTail2, hm, hc, stepState]⟩
    | false => exact ⟨[], by simp [iterTail2, hm, hc, stepState]⟩
  | throwMsg m =>
    cases hc : jsJoinNames n == jsJoinNames s1.lastFunctionCalls with
    | true => exact ⟨[repeatingMsg] ++ [errMsg m], by simp [iterTail2, hm, hc, stepState]⟩
    | false => exact ⟨[errMsg m], by simp [iterTail2, hm, hc, stepState]⟩

theorem iterTail_messages (s1 : OState) (parsed : JValue) (m1 : List Message)
    (n : List (Option JValue)) (rs : List FuncResult) (ok : Bool) :
    ∃ tail, (stepState (iterTail s1 parsed m1 n rs ok)).messages =
      m1 ++ rs.map fmtResult ++ tail := by
  simp only [iterTail]
  split
  · split
    · exact ⟨[multFailMsg], by simp [stepState]⟩
    · obtain ⟨tail, ht⟩ :=
        iterTail2_messages s1 parsed ((m1 ++ rs.map fmtResult) ++ [adjustMsg]) n
          (s1.consecutiveFailures + 1) (s1.batches ++ [n])
      refine ⟨[adjustMsg] ++ tail, ?_⟩
      simp only [List.append_assoc] at ht ⊢
      exact ht
  · obtain ⟨tail, ht⟩ :=
      iterTail2_messages s1 parsed (m1 ++ rs.map fmtResult) n 0 (s1.batches ++ [n])
    exact ⟨tail, by simp only [ht, List.append_assoc]⟩

/-- C7 counterexample: the name toString references no registered operation,
yet the dispatch does not record the Unknown function error: the prototype
chain of the plain registry object makes the lookup truthy and the call
invokes Object.prototype.toString with an undefined receiver, recording a
SUCCESS result with the text [object Undefined] and leaving the
all-succeeded flag true; this falsifies the claim that an unregistered name
always yields status error with Unknown function. -/
theorem claim_C7_counterexample :
    FUNCTION_HANDLERS.contains "toString" = false ∧
    runBatch envWC7 "p" 0 [.obj [("name", .str "toString"), ("arguments", .obj [])]]
        0 [] [] true =
      .done [some (.str "toString")]
        [⟨some (.str "toString"), .ok (.str "[object Undefined]")⟩] true := by decide

/-- C7 amended: within one batch, every proposed call is dispatched
independently in proposal order: the loop result equals the independent
per-index dispatch (batchSpec, entry by entry callResult), where a name that
matches neither a registered key nor an inherited Object.prototype member
yields exactly the Unknown function error regardless of its arguments (third
conjunct), an inherited Object.prototype member is invoked instead
(protoInvoke), a registered throwing handler yields its message and success
records the returned value; the all-succeeded flag is the conjunction over
entries, so one failure never removes later entries; and the completed
iteration appends exactly the one summary message per entry. -/
theorem claim_C7 (env : Env) (pid : String) (iter : Nat) (items : List JValue)
    (hnn : JValue.null ∉ items) :
    runBatch env pid iter items 0 [] [] true =
      .done (items.map (fun it => jget it "name")) (batchSpec env pid iter 0 items)
        (resultsAllOk (batchSpec env pid iter 0 items)) ∧
    (∀ (idx : Nat) (item : JValue), items.get? idx = some item →
      (batchSpec env pid iter 0 items).get? idx = some (callResult env pid iter idx item)) ∧
    (∀ (idx : Nat) (item : JValue), items.get? idx = some item →
      FUNCTION_HANDLERS.contains (jsToStr? (jget item "name")) = false →
      OBJECT_PROTOTYPE_KEYS.contains (jsToStr? (jget item "name")) = false →
      (batchSpec env pid iter 0 items).get? idx =
        some ⟨jget item "name", .err "Unknown function"⟩) ∧
    (∀ (s1 : OState) (parsed : JValue) (m1 : List Message) (n : List (Option JValue))
        (rs : List FuncResult) (ok : Bool),
      ∃ tail, (stepState (iterTail s1 parsed m1 n rs ok)).messages =
        m1 ++ rs.map fmtResult ++ tail) := by
  refine ⟨?_, ?_, ?_, ?_⟩
  · have h := runBatch_spec env pid iter items hnn 0 [] [] true
    simpa using h
  · intro idx item hidx
    rw [batchSpec_get env pid iter items 0 idx, hidx]
    simp
  · intro idx item hidx hreg hproto
    rw [batchSpec_get env pid iter items 0 idx, hidx]
    simp at hreg hproto
    simp [callResult, hreg, hproto]
  · intro s1 parsed m1 n rs ok
    exact iterTail_messages s1 parsed m1 n rs ok

/-- Witness for C7 at a concrete two-call batch (one registered and throwing,
one unregistered). -/
theorem claim_C7_witness :
    runBatch envWC7 "p" 0 itemsW 0 [] [] true =
      .done (itemsW.map (fun it => jget it "name")) (batchSpec envWC7 "p" 0 0 itemsW)
        (resultsAllOk (batchSpec envWC7 "p" 0 0 itemsW)) :=
  (claim_C7 envWC7 "p" 0 itemsW (by decide)).1

/-- A successfully parsed reply with a nonempty, null-free function_calls
array makes the iteration execute the batch and proceed to the result and
policy steps. -/
theorem orchIteration_batch (env : Env) (pid : String) (s : OState) (r0 : String)
    (parsed : JValue) (items : List JValue)
    (hllm : env.llm s.messages = .content (some r0))
    (hne : ¬ (jsTrim r0 = ""))
    (hex : extractJSONFromResponse (jsTrim r0) = some parsed)
    (hfc : jget parsed "function_calls" = some (.arr items))
    (hits : items ≠ [])
    (hnn : JValue.null ∉ items) :
    orchIteration env pid s =
      iterTail { s with calls := s.calls + 1 } parsed
        (s.messages ++ [⟨.assistant, jget parsed "explanation"⟩])
        (items.map (fun it => jget it "name"))
        (batchSpec env pid s.iteration 0 items)
        (resultsAllOk (batchSpec env pid s.iteration 0 items)) := by
  have hrb := runBatch_spec env pid s.iteration items hnn 0 [] [] true
  simp only [List.nil_append, Bool.true_and] at hrb
  have hlen : ¬ (items.length = 0) := by
    cases items with
    | nil => exact absurd rfl hits
    | cons a l => simp
  simp [orchIteration, hllm, hne, hex, hfc, jsTruthy, jsLenOpt, jsLength, jsIterate, hrb, hlen]

/-- C4: failure-streak policy.  At any state, for an iteration that executes
a batch (parsed reply with a nonempty null-free call array): (a) if some call
fails while the streak already stands at two, the counter reaches three, the
run stops right there with the multiple-consecutive-failures notice appended
and no further model call; (b) if some call fails on a shorter streak (and
the meta-action step does not throw), the counter is incremented, the
adjust-your-approach notice is appended and the loop continues; (c) if every
call succeeds, the loop continues with the counter reset to zero. -/
theorem claim_C4 (env : Env) (pid : String) (f : Nat) (s : OState) (r0 : String)
    (parsed : JValue) (items : List JValue) (mas : List JValue)
    (hllm : env.llm s.messages = .content (some r0))
    (hne : ¬ (jsTrim r0 = ""))
    (hex : extractJSONFromResponse (jsTrim r0) = some parsed)
    (hfc : jget parsed "function_calls" = some (.arr items))
    (hits : items ≠ [])
    (hnn : JValue.null ∉ items)
    (hma : metaEmit (jget parsed "meta_actions") = .emit mas) :
    ((resultsAllOk (batchSpec env pid s.iteration 0 items) = false ∧
        s.consecutiveFailures = 2) →
      orchGo env pid (f + 1) s =
        { s with
            calls := s.calls + 1,
            consecutiveFailures := 3,
            messages := s.messages ++ [⟨.assistant, jget parsed "explanation"⟩] ++
              (batchSpec env pid s.iteration 0 items).map fmtResult ++ [multFailMsg],
            batches := s.batches ++ [items.map (fun it => jget it "name")] }) ∧
    ((resultsAllOk (batchSpec env pid s.iteration 0 items) = false ∧
        s.consecutiveFailures < 2) →
      ∃ s1, orchIteration env pid s = .next s1 ∧
        s1.consecutiveFailures = s.consecutiveFailures + 1 ∧
        adjustMsg ∈ s1.messages ∧
        orchGo env pid (f + 1) s = orchGo env pid f s1) ∧
    ((resultsAllOk (batchSpec env pid s.iteration 0 items) = true) →
      ∃ s1, orchIteration env pid s = .next s1 ∧
        s1.consecutiveFailures = 0 ∧
        orchGo env pid (f + 1) s = orchGo env pid f s1) := by
  have hstep := orchIteration_batch env pid s r0 parsed items hllm hne hex hfc hits hnn
  refine ⟨?_, ?_, ?_⟩
  · rintro ⟨hok, hcf⟩
    have hbroke : orchIteration env pid s =
        .broke
          { s with
              calls := s.calls + 1,
              consecutiveFailures := 3,
              messages := s.messages ++ [⟨.assistant, jget parsed "explanation"⟩] ++
                (batchSpec env pid s.iteration 0 items).map fmtResult ++ [multFailMsg],
              batches := s.batches ++ [items.map (fun it => jget it "name")] } := by
      rw [hstep]
      simp [iterTail, hok, hcf]
    simp [orchGo, hbroke]
  · rintro ⟨hok, hcf⟩
    have hcf3 : ¬ (s.consecutiveFailures + 1 ≥ 3) := by omega
    have hx : ∃ s1, orchIteration env pid s = .next s1 ∧
        s1.consecutiveFailures = s.consecutiveFailures + 1 ∧ adjustMsg ∈ s1.messages := by
      rw [hstep]
      simp only [iterTail, iterTail2, hok, hcf3, hma, Bool.false_eq_true, not_false_eq_true,
        if_true, if_false, ite_false, ite_true]
      split
      · exact ⟨_, rfl, rfl, by simp⟩
      · exact ⟨_, rfl, rfl, by simp⟩
    obtain ⟨s1, hnext, hcf1, hmem⟩ := hx
    exact ⟨s1, hnext, hcf1, hmem, by simp [orchGo, hnext]⟩
  · intro hok
    have hx : ∃ s1, orchIteration env pid s = .next s1 ∧ s1.consecutiveFailures = 0 := by
      rw [hstep]
      simp only [iterTail, iterTail2, hok, hma, not_true_eq_false, Bool.not_eq_true,
        if_false, ite_false, ite_true]
      split
      · exact ⟨_, rfl, rfl⟩
      · exact ⟨_, rfl, rfl⟩
    obtain ⟨s1, hnext, hcf1⟩ := hx
    exact ⟨s1, hnext, hcf1, by simp [orchGo, hnext]⟩

/-- Witness for C4 at a state with two prior failing iterations and a third
all-failing batch. -/
theorem claim_C4_witness :
    orchGo envWC4 "p" (0 + 1) sW4 =
      { sW4 with
          calls := sW4.calls + 1,
          consecutiveFailures := 3,
          messages := sW4.messages ++ [⟨.assistant, jget parsedBad "explanation"⟩] ++
            (batchSpec envWC4 "p" sW4.iteration 0 itemsBad).map fmtResult ++ [multFailMsg],
          batches := sW4.batches ++ [itemsBad.map (fun it => jget it "name")] } :=
  (claim_C4 envWC4 "p" 0 sW4 replyBad parsedBad itemsBad [] rfl (by decide) (by decide)
    (by decide) (by decide) (by decide) (by decide)).1 ⟨by decide, rfl⟩

/-- C6 counterexample: in this run iterations 1 and 2 both execute batches
with the identical ordered name list (the single name b), yet the final
transcript holds no message containing the word repeating, because the
three-consecutive-failures break at iteration 2 happens before the repeat
check; this falsifies the claim that two consecutive identical batches
always leave a repeating warning in the transcript. -/
theorem claim_C6_counterexample :
    (orchestrateTasks envC6 "p" [⟨.user, some (.str "go")⟩]).batches =
      [[some (.str "a")], [some (.str "b")], [some (.str "b")]] ∧
    ((orchestrateTasks envC6 "p" [⟨.user, some (.str "go")⟩]).messages.all
      (fun m => ¬ msgContains "repeating" m)) = true := by decide

/-- C6 amended: if an iteration executes a batch whose ordered name list
equals the previous iteration one, AND the iteration does not stop through
the three-consecutive-failures cutoff (whose break precedes the repeat
check), then the loop continues (the warning alone never terminates), the
repeating warning is in the transcript, and lastFunctionCalls is updated to
the current name list (matching or not). -/
theorem claim_C6_amended (env : Env) (pid : String) (s : OState) (r0 : String)
    (parsed : JValue) (items : List JValue) (mas : List JValue)
    (hllm : env.llm s.messages = .content (some r0))
    (hne : ¬ (jsTrim r0 = ""))
    (hex : extractJSONFromResponse (jsTrim r0) = some parsed)
    (hfc : jget parsed "function_calls" = some (.arr items))
    (hits : items ≠ [])
    (hnn : JValue.null ∉ items)
    (hma : metaEmit (jget parsed "meta_actions") = .emit mas)
    (hnocut : ¬ (resultsAllOk (batchSpec env pid s.iteration 0 items) = false ∧
      s.consecutiveFailures + 1 ≥ 3)) :
    ∃ s1, orchIteration env pid s = .next s1 ∧
      s1.lastFunctionCalls = items.map (fun it => jget it "name") ∧
      (items.map (fun it => jget it "name") = s.lastFunctionCalls →
        repeatingMsg ∈ s1.messages) := by
  have hstep := orchIteration_batch env pid s r0 parsed items hllm hne hex hfc hits hnn
  rw [hstep]
  cases hok : resultsAllOk (batchSpec env pid s.iteration 0 items) with
  | true =>
    simp only [iterTail, iterTail2, hok, hma, not_true_eq_false, Bool.not_eq_true, if_false,
      ite_false, ite_true]
    split
    · next hcond =>
      refine ⟨_, rfl, rfl, fun _ => ?_⟩
      simp
    · next hcond =>
      refine ⟨_, rfl, rfl, fun heq => ?_⟩
      exact absurd (by rw [heq]; exact beq_self_eq_true _) hcond
  | false =>
    have hge : ¬ (s.consecutiveFailures + 1 ≥ 3) := fun hgt => hnocut ⟨hok, hgt⟩
    simp only [iterTail, iterTail2, hok, hge, hma, Bool.false_eq_true, not_false_eq_true,
      if_true, if_false, ite_false, ite_true]
    split
    · next hcond =>
      refine ⟨_, rfl, rfl, fun _ => ?_⟩
      simp
    · next hcond =>
      refine ⟨_, rfl, rfl, fun heq => ?_⟩
      exact absurd (by rw [heq]; exact beq_self_eq_true _) hcond



/-- Witness for the amended C6: a second identical succeeding batch yields a
continuing state carrying the repeating warning. -/
theorem claim_C6_amended_witness :
    ∃ s1, orchIteration envWC1 "p" sW6 = .next s1 ∧
      s1.lastFunctionCalls = itemsRep.map (fun it => jget it "name") ∧
      (itemsRep.map (fun it => jget it "name") = sW6.lastFunctionCalls →
        repeatingMsg ∈ s1.messages) :=
  claim_C6_amended envWC1 "p" sW6 c1reply parsedRep itemsRep [] rfl (by decide) (by decide)
    (by decide) (by decide) (by decide) (by decide) (by decide)

theorem firstIdxOfChar_take (t : Char) :
    ∀ (cs : List Char) (i : Nat), firstIdxOfChar t cs = some i → t ∉ cs.take i := by
  intro cs
  induction cs with
  | nil => intro i h; simp [firstIdxOfChar] at h
  | cons c cs ih =>
    intro i h
    simp only [firstIdxOfChar] at h
    by_cases hc : (c == t) = true
    · rw [if_pos hc] at h
      cases h
      simp
    · rw [if_neg hc] at h
      cases hfi : firstIdxOfChar t cs with
      | none => rw [hfi] at h; simp at h
      | some j =>
        rw [hfi] at h
        simp only [Option.map_some', Option.some.injEq] at h
        subst h
        simp only [List.take_succ_cons, List.mem_cons, not_or]
        constructor
        · intro ht
          exact hc (by rw [ht]; exact beq_self_eq_true c)
        · exact ih j hfi

/-- C3 counterexample: this text holds a well-formed top-level JSON-object
substring (the first pair of braces), yet extraction returns null, because
the regular expression grabs from the first open brace to the LAST close
brace and that greedy block is not valid JSON; this falsifies both the
completeness direction and the only-fails-when-none-exists direction of the
claim. -/
theorem claim_C3_counterexample :
    hasJsonObjSubstring "\x7b\x7d \x7b\x7d" = true ∧
    extractJSONFromResponse "\x7b\x7d \x7b\x7d" = none := by decide

/-- C3 amended: when extraction succeeds, the returned value is the parse of
a well-formed top-level JSON-object substring that starts at the first open
brace of the text (the greedy block up to the last close brace); extraction
can fail even when some well-formed object substring exists, namely whenever
that particular block is not well-formed JSON. -/
theorem claim_C3_amended (s : String) (v : JValue)
    (h : extractJSONFromResponse s = some v) :
    ∃ pre mid post, s.toList = pre ++ mid ++ post ∧ lbrace ∉ pre ∧
      jsonParse (String.mk mid) = some v := by
  cases hb : regexBlockMatch s with
  | none =>
    simp only [extractJSONFromResponse, hb] at h
    exact absurd h (by simp)
  | some block =>
    simp only [extractJSONFromResponse, hb] at h
    simp only [regexBlockMatch] at hb
    split at hb
    · next i j heq1 heq2 =>
      split at hb
      · next hij =>
        injection hb with hb1
        refine ⟨s.toList.take i, (s.toList.drop i).take (j + 1 - i),
          (s.toList.drop i).drop (j + 1 - i), ?_, ?_, ?_⟩
        · rw [List.append_assoc, List.take_append_drop, List.take_append_drop]
        · exact firstIdxOfChar_take lbrace s.toList i heq1
        · rw [← hb1] at h
          exact h
      · exact absurd hb (by simp)
    · exact absurd hb (by simp)

/-- Witness for the amended C3 at a text with one leading character before
the block. -/
theorem claim_C3_amended_witness :
    ∃ pre mid post, ("a\x7b\x7d" : String).toList = pre ++ mid ++ post ∧ lbrace ∉ pre ∧
      jsonParse (String.mk mid) = some (.obj []) :=
  claim_C3_amended "a\x7b\x7d" (.obj []) (by decide)

/-- C8: the source path check is a raw string-prefix test without a
directory-separator guard, so the filename ../pevil/x.js for project p
resolves to projects/pevil/x.js, which is OUTSIDE the project directory
projects/p, yet validateFilePath accepts it and writeFile then writes that
outside path; the claim (and the security comment on validateFilePath)
requires rejection with Invalid file path.  The module directory is
instantiated at /app. -/
theorem claim_C8_escape :
    validateFilePath "/app" "p" "../pevil/x.js" = true ∧
    pathWithin (pathJoin (PROJECTS_DIR "/app") "p")
      (pathResolve (pathJoin (PROJECTS_DIR "/app") "p") "../pevil/x.js") = false ∧
    writeFileHandler "/app" "p" "../pevil/x.js" "owned" "ts" ⟨[], []⟩ =
      .ok "File ../pevil/x.js written successfully."
        ⟨[("/app/projects/pevil/x.js", "owned")], []⟩ := by decide
